import Mathlib

/-!
Shallow embedding of the minigo tree-walking interpreter
(package `interpreter`: `New`, `Interpreter.RunFile`, `runFunc`, `scope`,
`evaluator.EvalStmt`, `evaluator.EvalExpr`, `evaluator.evalCallExpr`,
`evaluator.evalBinaryExpr`, `Package`, `File`), together with theorems
settling the specification claims about it.

Modelling conventions:
- Go `reflect.Value` is the tagged `Value` type below; the reflect kinds that
  the interpreter can actually produce are `Invalid`, `Bool`, `Int` (literals,
  via `strconv.Atoi`), `Int64` (results of `x.Int() + y.Int()`), `Float64`,
  `String` and `Func`.  The `Uint*` branches of the source's ADD switch are
  unreachable (no literal, host function or operator produces an unsigned
  value) and are therefore absent from the embedding.
- Go maps are association lists with unique keys: `mapGet` returns the first
  binding, `mapSet` overwrites an existing binding in place or appends.
- The frame stack and the call-history stack are Go slices with the top at the
  *end*; the embedding stores them reversed (top at the head), so Go's
  `append`/truncate become cons/tail.
- A Go runtime panic (reflect misuse, out-of-range index/slice) is the
  `Res.goPanic` outcome.  Deferred cleanups (`defer scope.Pop()`, the history
  truncation) run during panic unwinding in Go, and the embedding applies them
  on the panic path as well.  Returned errors are the structured `Err` type:
  each constructor corresponds to one `fmt.Errorf` call site of the source,
  with `%w` wrapping kept as a nested `Err`.
- `fmt.Fprintln` to the configured stdout is modelled by appending the
  space-joined, newline-terminated rendering of the arguments to the
  `stdout : String` field of the state, returning the number of bytes written.
- `strings.ToUpper` is modelled on the ASCII range (Unicode case mapping is
  outside the scope of the claims; every evaluated input is ASCII).
- `strconv.ParseFloat` is modelled for the plain decimal forms
  (digits, digits.digits) the Go scanner produces for FLOAT literals, with
  exact rational values; on the dyadic literals exercised here (1.5, 2.5, 4.0)
  this coincides with IEEE-754 double arithmetic, which is exact for them.
-/

namespace Minigo

/-- Host callables reachable from evaluated code: the closure over
`fmt.Fprintln(stdout, ...)` (bound both as the root-scope `println` and as
`fmt.Println`) and `strings.ToUpper`. -/
inductive Callable where
  | printlnFn
  | toUpperFn
deriving DecidableEq, Repr

/-- Runtime value: the embedding of `reflect.Value` restricted to the kinds
the interpreter can produce.  `invalid` is the zero `reflect.Value{}`. -/
inductive Value where
  | invalid
  | bool (b : Bool)
  | int (n : Int)
  | int64 (n : Int)
  | float64 (q : Rat)
  | string (s : String)
  | func (f : Callable)
deriving DecidableEq, Repr

/-- The `reflect.Kind` of a value, as compared by `x.Kind() != y.Kind()`. -/
inductive Kind where
  | Invalid
  | Bool
  | Int
  | Int64
  | Float64
  | String
  | Func
deriving DecidableEq, Repr

def Value.kind : Value → Kind
  | .invalid => .Invalid
  | .bool _ => .Bool
  | .int _ => .Int
  | .int64 _ => .Int64
  | .float64 _ => .Float64
  | .string _ => .String
  | .func _ => .Func

/-- Lower-case kind name as printed by `reflect.Kind.String` (`%s`). -/
def kindName : Kind → String
  | .Invalid => "invalid"
  | .Bool => "bool"
  | .Int => "int"
  | .Int64 => "int64"
  | .Float64 => "float64"
  | .String => "string"
  | .Func => "func"

/-- Two's-complement wraparound of Go `int64` arithmetic. -/
def wrap64 (n : Int) : Int :=
  (n + 9223372036854775808) % 18446744073709551616 - 9223372036854775808

/-- Go map read: the binding for `k`, if any (keys are unique). -/
def mapGet {α : Type} (m : List (String × α)) (k : String) : Option α :=
  match m with
  | [] => none
  | (k0, v) :: rest => if k0 = k then some v else mapGet rest k

/-- Go map write: overwrite the binding for `k` in place, or append it. -/
def mapSet {α : Type} (m : List (String × α)) (k : String) (v : α) :
    List (String × α) :=
  if m.any (fun p => p.1 = k) then
    m.map (fun p => if p.1 = k then (k, v) else p)
  else
    m ++ [(k, v)]

/-- Host binding for `strings.ToUpper`, modelled on the ASCII range. -/
def goToUpper (s : String) : String :=
  String.mk (s.toList.map fun c =>
    if 'a' ≤ c ∧ c ≤ 'z' then Char.ofNat (c.toNat - 32) else c)

/-- Decimal digit rendering helpers and value renderings used by
`fmt.Fprintln`'s default `%v` verb. -/
def goFloatString (q : Rat) : String :=
  if q.den = 1 then toString q.num else toString q.num ++ "/" ++ toString q.den

/-- Rendering of one argument by `fmt.Fprintln`'s `%v`.  Strings print
verbatim, integers in decimal, booleans as true/false.  A function argument
prints as its address and an invalid value never reaches printing (reflect
rejects zero `Value` arguments first); both placeholders are unreachable in
every evaluated program of the claims. -/
def goString : Value → String
  | .string s => s
  | .int n => toString n
  | .int64 n => toString n
  | .bool b => if b then "true" else "false"
  | .float64 q => goFloatString q
  | .func _ => "(func address)"
  | .invalid => "(invalid)"

/-- What `fmt.Fprintln(w, args...)` writes: operands space-separated,
newline-terminated. -/
def fprintlnString (args : List Value) : String :=
  String.intercalate " " (args.map goString) ++ "\n"

/-- Quoting of the offending literal in `strconv` error texts (`%q`). -/
def goQuote (s : String) : String :=
  "\"" ++ s ++ "\""

def allDigits (cs : List Char) : Bool :=
  cs.all fun c => '0' ≤ c ∧ c ≤ '9'

def digitsVal (cs : List Char) : Nat :=
  cs.foldl (fun acc c => acc * 10 + (c.toNat - 48)) 0

/-- Go `strconv.Atoi` (= `ParseInt(s, 10, 0)` on a 64-bit platform): optional
sign, then one or more plain decimal digits — no base prefixes, no digit
separators — with the value required to fit in `int64`.  The early-cutoff
overflow detection of the Go implementation is behaviourally equivalent to
computing the exact value and range-checking it at the end, which is what the
embedding does. -/
def atoi (s : String) : Except String Int :=
  let cs := s.toList
  let ds : List Char :=
    if cs.head? = some '+' ∨ cs.head? = some '-' then cs.tail else cs
  if ds ≠ [] ∧ allDigits ds then
    let v : Int :=
      if cs.head? = some '-' then -(digitsVal ds : Int) else (digitsVal ds : Int)
    if v < -9223372036854775808 ∨ 9223372036854775807 < v then
      Except.error ("strconv.Atoi: parsing " ++ goQuote s ++ ": value out of range")
    else
      Except.ok v
  else
    Except.error ("strconv.Atoi: parsing " ++ goQuote s ++ ": invalid syntax")

/-- Go `strings.Split` on a one-character separator, over character lists:
the list of segments between occurrences of `sep`. -/
def splitOnChar (sep : Char) : List Char → List (List Char)
  | [] => [[]]
  | c :: rest =>
    if c = sep then [] :: splitOnChar sep rest
    else
      match splitOnChar sep rest with
      | [] => [[c]]
      | h :: t => (c :: h) :: t

/-- Splitting at every dot: the segment structure used to read a plain
decimal float literal (whole part, fractional part). -/
def splitDot (cs : List Char) : List (List Char) :=
  splitOnChar '.' cs

/-- Go `strconv.ParseFloat(s, 64)`, modelled for the plain decimal forms the
scanner emits for FLOAT tokens (see the header note); the value is kept as an
exact rational. -/
def parseFloat (s : String) : Except String Rat :=
  match splitDot s.toList with
  | [w] =>
    if w ≠ [] ∧ allDigits w then
      Except.ok ((digitsVal w : Int) : Rat)
    else
      Except.error ("strconv.ParseFloat: parsing " ++ goQuote s ++ ": invalid syntax")
  | [w, f] =>
    if (w ≠ [] ∨ f ≠ []) ∧ allDigits w ∧ allDigits f then
      Except.ok ((digitsVal w : Rat) + (digitsVal f : Rat) / (10 : Rat) ^ f.length)
    else
      Except.error ("strconv.ParseFloat: parsing " ++ goQuote s ++ ": invalid syntax")
  | _ => Except.error ("strconv.ParseFloat: parsing " ++ goQuote s ++ ": invalid syntax")

/-- One lexical frame: a Go map from names to values. -/
abbrev Frame := List (String × Value)

/-- The scope: a stack of frames.  Go keeps the top frame at the end of the
slice; the embedding stores the list reversed, top frame first. -/
structure Scope where
  frames : List Frame
deriving DecidableEq, Repr

/-- scope.Push: append a fresh empty frame on top. -/
def Scope.Push (s : Scope) : Scope :=
  ⟨[] :: s.frames⟩

/-- scope.Pop: discard the top frame.  (Go panics when the stack is empty;
the interpreter never pops the root frame, so that path is unreachable.) -/
def Scope.Pop (s : Scope) : Scope :=
  ⟨s.frames.tail⟩

/-- scope.Set: bind in the current (topmost) frame only.  (Go panics on an
empty frame stack; unreachable, the root frame is never popped.) -/
def Scope.Set (s : Scope) (n : String) (v : Value) : Scope :=
  match s.frames with
  | [] => s
  | top :: rest => ⟨mapSet top n v :: rest⟩

/-- Search a frame list innermost-first. -/
def lookupFrames (fs : List Frame) (n : String) : Option Value :=
  match fs with
  | [] => none
  | f :: rest =>
    match mapGet f n with
    | some v => some v
    | none => lookupFrames rest n

/-- scope.Get: search frames innermost to outermost, first match wins. -/
def Scope.Get (s : Scope) (n : String) : Option Value :=
  lookupFrames s.frames n

/-- Kind of a `go/token` basic-literal token (`expr.Kind`). -/
inductive LitKind where
  | int
  | float
  | imag
  | char
  | string
deriving DecidableEq, Repr

/-- Token name as printed by `%v` on a `token.Token` literal kind. -/
def litKindName : LitKind → String
  | .int => "INT"
  | .float => "FLOAT"
  | .imag => "IMAG"
  | .char => "CHAR"
  | .string => "STRING"

/-- Binary operator token.  The evaluator distinguishes only ADD, LOR and
LAND; every other operator token is carried with its printed form (`%v`). -/
inductive Op where
  | add
  | lor
  | land
  | otherOp (repr : String)
deriving DecidableEq, Repr

/-- Expression nodes of `go/ast` as dispatched by the evaluator.  `otherExpr`
stands for any further node kind, carrying its `%T` type name. -/
inductive Expr where
  | basicLit (kind : LitKind) (value : String)
  | ident (name : String)
  | binary (x : Expr) (op : Op) (y : Expr)
  | call (f : Expr) (args : List Expr)
  | selector (x : Expr) (sel : String)
  | otherExpr (tyName : String)

/-- Statement nodes of `go/ast` as dispatched by the evaluator.  `otherStmt`
stands for any further node kind, carrying its `%T` type name. -/
inductive Stmt where
  | exprStmt (x : Expr)
  | block (list : List Stmt)
  | assign (lhs : List Expr) (rhs : List Expr)
  | otherStmt (tyName : String)

/-- Go `%T` rendering of an expression node. -/
def exprTypeName : Expr → String
  | .basicLit _ _ => "*ast.BasicLit"
  | .ident _ => "*ast.Ident"
  | .binary _ _ _ => "*ast.BinaryExpr"
  | .call _ _ => "*ast.CallExpr"
  | .selector _ _ => "*ast.SelectorExpr"
  | .otherExpr t => t

/-- Go `%s` rendering of the receiver `sel.X` in the qualified-call error
messages: `ast.Ident` implements `fmt.Stringer` and prints its name; the
reflection-based default rendering of other nodes is not modelled (no claim
exercises it). -/
def exprSelDesc : Expr → String
  | .ident n => n
  | e => "(" ++ exprTypeName e ++ " value)"

/-- A statement of a function body together with its source position
(`stmt.Pos()`), which only the driver consults. -/
structure SrcStmt where
  pos : Nat
  stmt : Stmt

/-- Top-level declaration of a file: the driver only distinguishes
`*ast.FuncDecl` (name and body) from everything else. -/
inductive Decl where
  | funcDecl (name : String) (body : List SrcStmt)
  | otherDecl

/-- One `*ast.ImportSpec`: the optional explicit alias (`im.Name`) and the
quoted path literal (`im.Path.Value`). -/
structure ImportSpec where
  name : Option String
  path : String

/-- The already-parsed `*ast.File`: its position, top-level declarations
and import specs. -/
structure AstFile where
  pos : Nat
  decls : List Decl
  imports : List ImportSpec

/-- Structured evaluation error.  Each constructor corresponds to one
`fmt.Errorf` call site in the source; `%w`-wrapping call sites carry the
wrapped error as a nested `Err`. -/
inductive Err where
  | convIntErr (msg : String)
  | convFloatErr (msg : String)
  | unsupportedBasicLit (kind : LitKind) (value : String)
  | undefinedVariable (name : String)
  | unsupportedExprType (tyName : String)
  | unsupportedStmtType (tyName : String)
  | unsupportedAssignLhsCount (n : Nat)
  | unsupportedAssignRhsCount (n : Nat)
  | unsupportedAssignLhsType (tyName : String)
  | failedToEvalExpr (inner : Err)
  | inBlock (i : Nat) (inner : Err)
  | failedToEvalAssign (inner : Err)
  | failedToEvalArgument (i : Nat) (inner : Err)
  | failedToEvalBinaryLhs (inner : Err)
  | failedToEvalBinaryRhs (inner : Err)
  | invalidValues (x y : Value)
  | unsupportedTypes (x y : Kind)
  | unsupportedOperator (op : Op)
  | unsupportedFunction (name : String)
  | unsupportedFunctionSel (x sel : String)
  | unsupportedFunctionQualified (x sel : String)
  | unsupportedFunctionType (tyName : String)
  | entrypointNotFound (name : String)
  | atLine (line : Nat) (inner : Err)
deriving DecidableEq, Repr

/-- Outcome of one evaluation step: a value, a returned `error`, or a Go
runtime panic (abnormal abort). -/
inductive Res (α : Type) where
  | ok (v : α)
  | err (e : Err)
  | goPanic (msg : String)
deriving DecidableEq, Repr

/-- File descriptor registered in a package: name, parsed tree, and
the import-alias table (alias to import path). -/
structure File where
  Name : String
  Node : AstFile
  Imports : List (String × String)

/-- Package: name, path, exported callables (`Decls`) and loaded files. -/
structure Package where
  Name : String
  Path : String
  Decls : List (String × Callable)
  Files : List (String × File)

/-- Mutable interpreter state threaded through evaluation: the output sink,
the scope, the package registry and the call-history stack of files (top at
the head; Go keeps it at the end of a slice). -/
structure EvalState where
  stdout : String
  scope : Scope
  packages : List (String × Package)
  history : List File

/-- Go `reflect.Value.Call` on a value: panics unless the value is a
function; invokes the host binding.  The host bindings: the Fprintln closure
writes the rendered line to stdout and returns `(int, error)` (two results,
the byte count first; the always-nil error result is never consumed and is
modelled as `invalid`); `strings.ToUpper` takes one string and returns one
string, any other argument shape panics inside reflect. -/
def callValue (v : Value) (args : List Value) (st : EvalState) :
    Res (List Value) × EvalState :=
  match v with
  | .func c =>
    if args.any (fun a => a = Value.invalid) then
      (.goPanic "reflect: Call using zero Value argument", st)
    else
      match c with
      | .printlnFn =>
        let line := fprintlnString args
        (.ok [.int (Int.ofNat line.utf8ByteSize), .invalid],
          { st with stdout := st.stdout ++ line })
      | .toUpperFn =>
        match args with
        | [] => (.goPanic "reflect: Call with too few input arguments", st)
        | [.string s] => (.ok [.string (goToUpper s)], st)
        | [a] =>
          (.goPanic ("reflect: Call using " ++ kindName a.kind ++ " as type string"), st)
        | _ => (.goPanic "reflect: Call with too many input arguments", st)
  | _ =>
    (.goPanic ("reflect: call of reflect.Value.Call on " ++ kindName v.kind ++ " Value"), st)

/-- The `len(out) == 0` / `out[0]` convention after `rfn.Call(args)`: a void
call yields the zero `reflect.Value`, otherwise the first result. -/
def firstOut (p : Res (List Value) × EvalState) : Res Value × EvalState :=
  match p with
  | (.ok [], st) => (.ok .invalid, st)
  | (.ok (v :: _), st) => (.ok v, st)
  | (.err e, st) => (.err e, st)
  | (.goPanic m, st) => (.goPanic m, st)

/-- Operator dispatch of `evaluator.evalBinaryExpr` once both operands have
been evaluated: both must be valid and of exactly equal kind, then ADD is
polymorphic over int/uint/float/string kinds (the uint branches are
unreachable, see the header note), LOR and LAND require booleans, and any
other operator is unsupported.  `x.Int() + y.Int()` is Go `int64` addition,
hence the wraparound and the `Int64` result kind. -/
def binaryOp (op : Op) (x y : Value) : Res Value :=
  if x.kind = .Invalid ∨ y.kind = .Invalid ∨ x.kind ≠ y.kind then
    .err (.invalidValues x y)
  else
    match op with
    | .add =>
      match x, y with
      | .int a, .int b => .ok (.int64 (wrap64 (a + b)))
      | .int64 a, .int64 b => .ok (.int64 (wrap64 (a + b)))
      | .float64 a, .float64 b => .ok (.float64 (a + b))
      | .string a, .string b => .ok (.string (a ++ b))
      | _, _ => .err (.unsupportedTypes x.kind y.kind)
    | .lor =>
      match x, y with
      | .bool a, .bool b => .ok (.bool (a || b))
      | _, _ => .err (.unsupportedTypes x.kind y.kind)
    | .land =>
      match x, y with
      | .bool a, .bool b => .ok (.bool (a && b))
      | _, _ => .err (.unsupportedTypes x.kind y.kind)
    | .otherOp r => .err (.unsupportedOperator (Op.otherOp r))

/-- Callee dispatch of `evaluator.evalCallExpr` once the arguments have been
evaluated.  A bare identifier is looked up in the scope and invoked
reflectively if bound (a non-function binding makes `reflect.Value.Call`
panic).  A selector `alias.Name` resolves `alias` through the import table of
the innermost file of the call history (a Go map read defaulting to the empty
path), then the package registry, then the package's `Decls`; the source's
missing-package and non-identifier receivers fall through to the same
double-colon error return.  An empty call history makes `history[len-1]`
panic (unreachable: `RunFile` always pushes a file first). -/
def callDispatch (f : Expr) (args : List Value) (st : EvalState) :
    Res Value × EvalState :=
  match f with
  | .ident name =>
    match st.scope.Get name with
    | some rfn => firstOut (callValue rfn args st)
    | none => (.err (.unsupportedFunction name), st)
  | .selector x sel =>
    match x with
    | .ident xname =>
      match st.history.head? with
      | none => (.goPanic "runtime error: index out of range", st)
      | some file =>
        match mapGet st.packages ((mapGet file.Imports xname).getD "") with
        | some pkg =>
          match mapGet pkg.Decls sel with
          | some c => firstOut (callValue (.func c) args st)
          | none => (.err (.unsupportedFunctionSel xname sel), st)
        | none => (.err (.unsupportedFunctionQualified (exprSelDesc x) sel), st)
    | _ => (.err (.unsupportedFunctionQualified (exprSelDesc x) sel), st)
  | _ => (.err (.unsupportedFunctionType (exprTypeName f)), st)

mutual

/-- evaluator.EvalExpr.  The `.binary` case is `evaluator.evalBinaryExpr`
(operands left to right, the right one only if the left succeeded, then
`binaryOp`); the `.call` case is `evaluator.evalCallExpr` (arguments left to
right via `evalArgs`, then `callDispatch`).  Both are inlined here so that
the recursion stays structural; each keeps its source shape. -/
def EvalExpr : Expr → EvalState → Res Value × EvalState
  | .basicLit kind value, st =>
    match kind with
    | .int =>
      match atoi value with
      | .error m => (.err (.convIntErr m), st)
      | .ok n => (.ok (.int n), st)
    | .float =>
      match parseFloat value with
      | .error m => (.err (.convFloatErr m), st)
      | .ok q => (.ok (.float64 q), st)
    | .string =>
      if 2 ≤ value.length then
        (.ok (.string ((value.drop 1).dropRight 1)), st)
      else
        (.goPanic "runtime error: slice bounds out of range", st)
    | k => (.err (.unsupportedBasicLit k value), st)
  | .ident name, st =>
    match st.scope.Get name with
    | some v => (.ok v, st)
    | none => (.err (.undefinedVariable name), st)
  | .binary x op y, st =>
    match EvalExpr x st with
    | (.err e, st1) => (.err (.failedToEvalBinaryLhs e), st1)
    | (.goPanic m, st1) => (.goPanic m, st1)
    | (.ok xv, st1) =>
      match EvalExpr y st1 with
      | (.err e, st2) => (.err (.failedToEvalBinaryRhs e), st2)
      | (.goPanic m, st2) => (.goPanic m, st2)
      | (.ok yv, st2) => (binaryOp op xv yv, st2)
  | .call f args, st =>
    match evalArgs args 0 st with
    | (.err e, st1) => (.err e, st1)
    | (.goPanic m, st1) => (.goPanic m, st1)
    | (.ok vs, st1) => callDispatch f vs st1
  | .selector _ _, st => (.err (.unsupportedExprType "*ast.SelectorExpr"), st)
  | .otherExpr t, st => (.err (.unsupportedExprType t), st)

/-- Argument loop of `evaluator.evalCallExpr`: evaluate every argument left
to right, wrapping a failure with its 0-based argument index. -/
def evalArgs : List Expr → Nat → EvalState → Res (List Value) × EvalState
  | [], _, st => (.ok [], st)
  | a :: rest, i, st =>
    match EvalExpr a st with
    | (.err e, st1) => (.err (.failedToEvalArgument i e), st1)
    | (.goPanic m, st1) => (.goPanic m, st1)
    | (.ok v, st1) =>
      match evalArgs rest (i + 1) st1 with
      | (.ok vs, st2) => (.ok (v :: vs), st2)
      | (.err e, st2) => (.err e, st2)
      | (.goPanic m, st2) => (.goPanic m, st2)

end

mutual

/-- evaluator.EvalStmt: expression statements discard the value; blocks push
a frame, run their statements through `evalBlockList` and pop the frame on
every exit path (the source's deferred `scope.Pop`); assignments support only
the one-target one-source shape with an identifier target — the right-hand
side is evaluated first and the result bound in the current frame. -/
def EvalStmt : Stmt → EvalState → Res Unit × EvalState
  | .exprStmt x, st =>
    match EvalExpr x st with
    | (.ok _, st1) => (.ok (), st1)
    | (.err e, st1) => (.err (.failedToEvalExpr e), st1)
    | (.goPanic m, st1) => (.goPanic m, st1)
  | .block list, st =>
    let p := evalBlockList list 0 { st with scope := st.scope.Push }
    (p.1, { p.2 with scope := p.2.scope.Pop })
  | .assign lhs rhs, st =>
    if 1 < lhs.length then
      (.err (.unsupportedAssignLhsCount lhs.length), st)
    else if 1 < rhs.length then
      (.err (.unsupportedAssignRhsCount rhs.length), st)
    else
      match lhs, rhs with
      | l0 :: _, r0 :: _ =>
        match l0 with
        | .ident name =>
          match EvalExpr r0 st with
          | (.ok v, st1) => (.ok (), { st1 with scope := st1.scope.Set name v })
          | (.err e, st1) => (.err (.failedToEvalAssign e), st1)
          | (.goPanic m, st1) => (.goPanic m, st1)
        | _ => (.err (.unsupportedAssignLhsType (exprTypeName l0)), st)
      | _, _ => (.goPanic "runtime error: index out of range", st)
  | .otherStmt t, st => (.err (.unsupportedStmtType t), st)

/-- Statement loop of the block case: strictly in order, stopping at the
first failure, which is re-wrapped with its 0-based index `i`. -/
def evalBlockList : List Stmt → Nat → EvalState → Res Unit × EvalState
  | [], _, st => (.ok (), st)
  | s :: rest, i, st =>
    match EvalStmt s st with
    | (.ok _, st1) => evalBlockList rest (i + 1) st1
    | (.err e, st1) => (.err (.inBlock i e), st1)
    | (.goPanic m, st1) => (.goPanic m, st1)

end

/-- Result of the `token.FileSet` position lookup for one `token.Pos`:
the file name and the 1-based line. -/
structure Position where
  filename : String
  line : Nat

/-- The position lookup `fset.Position` the driver is constructed with. -/
abbrev FileSet := Nat → Position

/-- Scan of the top-level declarations in `RunFile`: the body of the first
function declaration whose name is the entry point. -/
def findFunc : List Decl → String → Option (List SrcStmt)
  | [], _ => none
  | .funcDecl n body :: rest, ep =>
    if n = ep then some body else findFunc rest ep
  | .otherDecl :: rest, ep => findFunc rest ep

/-- Go strings.Trim of the surrounding double quotes of `im.Path.Value`. -/
def trimQuotes (s : String) : String :=
  String.mk (((s.toList.dropWhile (fun c => c = '"')).reverse.dropWhile
    (fun c => c = '"')).reverse)

/-- Default import alias: the last segment of the path (the source's
heuristic via `strings.Split(path, "/")`). -/
def defaultAlias (path : String) : String :=
  String.mk ((splitOnChar '/' path.toList).getLastD path.toList)

/-- The import-alias table built on first registration of a file: explicit
alias when present, otherwise the last path segment; later specs with the
same alias overwrite earlier ones (Go map writes in slice order). -/
def buildImports (l : List ImportSpec) : List (String × String) :=
  l.foldl
    (fun acc im =>
      let name0 := im.name.getD ""
      let path := trimQuotes im.path
      let name := if name0 = "" then defaultAlias path else name0
      mapSet acc name path)
    []

/-- Interpreter.runFunc: evaluate the entry function's body strictly in
order, wrapping a statement failure with the 1-based line of the statement
(via the position lookup) before returning it. -/
def runFunc (fset : FileSet) : List SrcStmt → EvalState → Res Unit × EvalState
  | [], st => (.ok (), st)
  | s :: rest, st =>
    match EvalStmt s.stmt st with
    | (.ok _, st1) => runFunc fset rest st1
    | (.err e, st1) => (.err (.atLine (fset s.pos).line e), st1)
    | (.goPanic m, st1) => (.goPanic m, st1)

/-- Registration prefix of `Interpreter.RunFile`: ensure the "main" package
exists (created lazily), then ensure the file named by the position lookup is
registered in it with its alias table built; re-registration of a known
filename reuses the cached descriptor.  Returns the file descriptor and the
updated state.  (In Go the `Files` update happens through the shared
`*Package` pointer; here the updated package is written back to the
registry, which is the same net effect.) -/
def registerFile (fset : FileSet) (node : AstFile) (st : EvalState) :
    File × EvalState :=
  let filename := (fset node.pos).filename
  let pkg0 :=
    match mapGet st.packages "main" with
    | some p => p
    | none => { Name := "main", Path := "main", Decls := [], Files := [] }
  let packages1 :=
    match mapGet st.packages "main" with
    | some _ => st.packages
    | none => mapSet st.packages pkg0.Path pkg0
  match mapGet pkg0.Files filename with
  | some f => (f, { st with packages := packages1 })
  | none =>
    let f : File := { Name := filename, Node := node, Imports := buildImports node.imports }
    let pkg1 := { pkg0 with Files := mapSet pkg0.Files filename f }
    (f, { st with packages := mapSet packages1 "main" pkg1 })

/-- Interpreter.RunFile: register the file under the lazily created "main"
package, push it on the call history (popped again on every exit path, the
source's deferred truncation), then scan the top-level declarations for the
entry function and run its body; a missing entry point is the terminal
"entrypoint func ... is not found" error. -/
def RunFile (fset : FileSet) (node : AstFile) (entrypoint : String)
    (st : EvalState) : Res Unit × EvalState :=
  let p := registerFile fset node st
  let st1 := { p.2 with history := p.1 :: p.2.history }
  let q :=
    match findFunc node.decls entrypoint with
    | some body => runFunc fset body st1
    | none => (.err (.entrypointNotFound entrypoint), st1)
  (q.1, { q.2 with history := q.2.history.tail })

/-- The fmt package pre-registered by `New`. -/
def fmtPackage : Package :=
  { Name := "fmt", Path := "fmt", Decls := [("Println", .printlnFn)], Files := [] }

/-- The strings package pre-registered by `New`. -/
def stringsPackage : Package :=
  { Name := "strings", Path := "strings", Decls := [("ToUpper", .toUpperFn)], Files := [] }

/-- The package registry built by `New`: fmt and strings, each also
reachable under its fully qualified stdlib path (the same package value). -/
def initialPackages : List (String × Package) :=
  [("fmt", fmtPackage), ("strings", stringsPackage),
   ("github.com/podhmo/minigo/stdlib/strings", stringsPackage),
   ("github.com/podhmo/minigo/stdlib/fmt", fmtPackage)]

/-- The interpreter state built by `New`: empty output, a single root frame
binding true, false and the println callable, the pre-populated registry and
an empty call history. -/
def initialState : EvalState :=
  { stdout := ""
    scope := ⟨[[("true", .bool true), ("false", .bool false),
      ("println", .func .printlnFn)]]⟩
    packages := initialPackages
    history := [] }

/-- State after n successive RunFile calls on the same tree and entry point,
starting from the freshly constructed interpreter. -/
def runTimes (fset : FileSet) (node : AstFile) (ep : String) : Nat → EvalState
  | 0 => initialState
  | n + 1 => (RunFile fset node ep (runTimes fset node ep n)).2

/-- Number of File descriptors registered for `filename` in the "main"
package of a state. -/
def countMainFiles (st : EvalState) (filename : String) : Nat :=
  match mapGet st.packages "main" with
  | some pkg => (pkg.Files.filter (fun p => p.1 = filename)).length
  | none => 0

/-! Helper lemmas: reads after writes on Go maps, and which state components
each layer of the interpreter can touch. -/

@[simp]
theorem mapGet_mapSet_self {α : Type} (m : List (String × α)) (k : String) (v : α) :
    mapGet (mapSet m k v) k = some v := by
  induction m with
  | nil => simp [mapSet, mapGet]
  | cons p rest ih =>
    by_cases hp : p.1 = k
    · simp [mapSet, hp, mapGet]
    · by_cases hr : rest.any (fun q => q.1 = k)
      · simp only [mapSet, List.any_cons, hp] at ih ⊢
        simp [hr, mapGet, hp] at ih ⊢
        simpa [mapSet, hr] using ih
      · simp only [mapSet, List.any_cons, hp] at ih ⊢
        simp [hr, mapGet, hp] at ih ⊢
        simpa [mapSet, hr] using ih

@[simp]
theorem scopeSet_length (s : Scope) (n : String) (v : Value) :
    (s.Set n v).frames.length = s.frames.length := by
  cases h : s.frames <;> simp [Scope.Set, h]

@[simp]
theorem scopeSet_tail (s : Scope) (n : String) (v : Value) :
    (s.Set n v).frames.tail = s.frames.tail := by
  cases h : s.frames <;> simp [Scope.Set, h]

@[simp]
theorem firstOut_snd (p : Res (List Value) × EvalState) :
    (firstOut p).2 = p.2 := by
  rcases p with ⟨r, st⟩
  cases r with
  | ok l => cases l <;> simp [firstOut]
  | err e => simp [firstOut]
  | goPanic m => simp [firstOut]

theorem callValue_env (v : Value) (args : List Value) (st : EvalState) :
    (callValue v args st).2.scope = st.scope ∧
    (callValue v args st).2.packages = st.packages ∧
    (callValue v args st).2.history = st.history := by
  cases v with
  | func c =>
    cases c with
    | printlnFn =>
      by_cases h : args.any (fun a => a = Value.invalid) <;> simp [callValue, h]
    | toUpperFn =>
      by_cases h : args.any (fun a => a = Value.invalid)
      · simp [callValue, h]
      · rcases args with _ | ⟨a, rest⟩
        · simp [callValue, h]
        · rcases rest with _ | ⟨b, t⟩
          · cases a <;> simp [callValue, h]
          · simp [callValue, h]
  | _ => simp [callValue]

@[simp]
theorem callValue_scope (v : Value) (args : List Value) (st : EvalState) :
    (callValue v args st).2.scope = st.scope := (callValue_env v args st).1

@[simp]
theorem callValue_packages (v : Value) (args : List Value) (st : EvalState) :
    (callValue v args st).2.packages = st.packages := (callValue_env v args st).2.1

@[simp]
theorem callValue_history (v : Value) (args : List Value) (st : EvalState) :
    (callValue v args st).2.history = st.history := (callValue_env v args st).2.2

theorem callDispatch_env (f : Expr) (args : List Value) (st : EvalState) :
    (callDispatch f args st).2.scope = st.scope ∧
    (callDispatch f args st).2.packages = st.packages ∧
    (callDispatch f args st).2.history = st.history := by
  cases f with
  | ident name =>
    cases h : st.scope.Get name with
    | some rfn => simp [callDispatch, h]
    | none => simp [callDispatch, h]
  | selector x sel =>
    cases x with
    | ident xname =>
      cases hh : st.history.head? with
      | none => simp [callDispatch, hh]
      | some file =>
        cases hp : mapGet st.packages ((mapGet file.Imports xname).getD "") with
        | none => simp [callDispatch, hh, hp]
        | some pkg =>
          cases hd : mapGet pkg.Decls sel with
          | none => simp [callDispatch, hh, hp, hd]
          | some c => simp [callDispatch, hh, hp, hd]
    | _ => simp [callDispatch]
  | _ => simp [callDispatch]

@[simp]
theorem callDispatch_scope (f : Expr) (args : List Value) (st : EvalState) :
    (callDispatch f args st).2.scope = st.scope := (callDispatch_env f args st).1

@[simp]
theorem callDispatch_packages (f : Expr) (args : List Value) (st : EvalState) :
    (callDispatch f args st).2.packages = st.packages := (callDispatch_env f args st).2.1

@[simp]
theorem callDispatch_history (f : Expr) (args : List Value) (st : EvalState) :
    (callDispatch f args st).2.history = st.history := (callDispatch_env f args st).2.2

theorem evalExpr_env : ∀ (e : Expr) (st : EvalState),
    (EvalExpr e st).2.scope = st.scope ∧
    (EvalExpr e st).2.packages = st.packages ∧
    (EvalExpr e st).2.history = st.history := by
  intro e st
  refine EvalExpr.induct
    (fun e st =>
      (EvalExpr e st).2.scope = st.scope ∧
      (EvalExpr e st).2.packages = st.packages ∧
      (EvalExpr e st).2.history = st.history)
    (fun l i st =>
      (evalArgs l i st).2.scope = st.scope ∧
      (evalArgs l i st).2.packages = st.packages ∧
      (evalArgs l i st).2.history = st.history)
    ?_ ?_ ?_ ?_ ?_ ?_ ?_ ?_ ?_ ?_ ?_ ?_ ?_ ?_ ?_ ?_ ?_ ?_ ?_ ?_ ?_ ?_ ?_ ?_ ?_
    e st
  all_goals intros
  all_goals simp_all [EvalExpr, evalArgs]
  all_goals (split <;> simp_all)

@[simp]
theorem evalExpr_scope (e : Expr) (st : EvalState) :
    (EvalExpr e st).2.scope = st.scope := (evalExpr_env e st).1

@[simp]
theorem evalExpr_packages (e : Expr) (st : EvalState) :
    (EvalExpr e st).2.packages = st.packages := (evalExpr_env e st).2.1

@[simp]
theorem evalExpr_history (e : Expr) (st : EvalState) :
    (EvalExpr e st).2.history = st.history := (evalExpr_env e st).2.2

theorem evalArgs_env (l : List Expr) (i : Nat) (st : EvalState) :
    (evalArgs l i st).2.scope = st.scope ∧
    (evalArgs l i st).2.packages = st.packages ∧
    (evalArgs l i st).2.history = st.history := by
  induction l generalizing i st with
  | nil => simp [evalArgs]
  | cons a rest ih =>
    cases h : EvalExpr a st with
    | mk r st1 =>
      have ha := evalExpr_env a st
      rw [h] at ha
      cases r with
      | ok v =>
        have hr := ih (i + 1) st1
        cases hr2 : evalArgs rest (i + 1) st1 with
        | mk r2 st2 =>
          cases r2 <;> simp_all [evalArgs]
      | err e => simp_all [evalArgs]
      | goPanic m => simp_all [evalArgs]

theorem evalStmt_keeps : ∀ (s : Stmt) (st : EvalState),
    (EvalStmt s st).2.scope.frames.length = st.scope.frames.length ∧
    (EvalStmt s st).2.scope.frames.tail = st.scope.frames.tail ∧
    (EvalStmt s st).2.packages = st.packages ∧
    (EvalStmt s st).2.history = st.history := by
  intro s st
  refine EvalStmt.induct
    (fun s st =>
      (EvalStmt s st).2.scope.frames.length = st.scope.frames.length ∧
      (EvalStmt s st).2.scope.frames.tail = st.scope.frames.tail ∧
      (EvalStmt s st).2.packages = st.packages ∧
      (EvalStmt s st).2.history = st.history)
    (fun l i st =>
      (evalBlockList l i st).2.scope.frames.length = st.scope.frames.length ∧
      (evalBlockList l i st).2.scope.frames.tail = st.scope.frames.tail ∧
      (evalBlockList l i st).2.packages = st.packages ∧
      (evalBlockList l i st).2.history = st.history)
    ?_ ?_ ?_ ?_ ?_ ?_ ?_ ?_ ?_ ?_ ?_ ?_ ?_ ?_ ?_ ?_
    s st
  · intro x st v st1 h
    have hx := evalExpr_env x st
    rw [h] at hx
    simp_all [EvalStmt]
  · intro x st e st1 h
    have hx := evalExpr_env x st
    rw [h] at hx
    simp_all [EvalStmt]
  · intro x st m st1 h
    have hx := evalExpr_env x st
    rw [h] at hx
    simp_all [EvalStmt]
  · intro l st ih
    simp_all [EvalStmt, Scope.Push, Scope.Pop]
  · intro lhs rhs st h
    simp_all [EvalStmt]
  · intro lhs rhs st h1 h2
    simp only [EvalStmt]
    split <;> simp
  · intro st tail r0 tail1 n v st1 h hr hl
    have hx := evalExpr_env r0 st
    rw [h] at hx
    simp_all [EvalStmt]
  · intro st tail r0 tail1 n e st1 h hr hl
    have hx := evalExpr_env r0 st
    rw [h] at hx
    simp_all [EvalStmt]
  · intro st tail r0 tail1 n m st1 h hr hl
    have hx := evalExpr_env r0 st
    rw [h] at hx
    simp_all [EvalStmt]
  · intro st tail r0 tail1 e hne hr hl
    simp_all [EvalStmt]
  · intro lhs rhs st h1 h2 hc
    cases lhs with
    | nil =>
      simp only [EvalStmt]
      split <;> simp
    | cons l0 t =>
      cases rhs with
      | nil =>
        simp only [EvalStmt]
        split <;> simp
      | cons r0 t1 => exact (hc l0 t r0 t1 rfl rfl).elim
  · intro t st
    simp_all [EvalStmt]
  · intro x st
    simp_all [evalBlockList]
  · intro s rest i st v st1 h ih1 ih2
    rw [h] at ih1
    simp_all [evalBlockList]
  · intro s rest i st e st1 h ih1
    rw [h] at ih1
    simp_all [evalBlockList]
  · intro s rest i st m st1 h ih1
    rw [h] at ih1
    simp_all [evalBlockList]

theorem evalBlockList_keeps (l : List Stmt) (i : Nat) (st : EvalState) :
    (evalBlockList l i st).2.scope.frames.length = st.scope.frames.length ∧
    (evalBlockList l i st).2.scope.frames.tail = st.scope.frames.tail ∧
    (evalBlockList l i st).2.packages = st.packages ∧
    (evalBlockList l i st).2.history = st.history := by
  induction l generalizing i st with
  | nil => simp [evalBlockList]
  | cons s rest ih =>
    have hs := evalStmt_keeps s st
    cases h : EvalStmt s st with
    | mk r st1 =>
      rw [h] at hs
      cases r with
      | ok v =>
        have hr := ih (i + 1) st1
        simp_all [evalBlockList]
      | err e => simp_all [evalBlockList]
      | goPanic m => simp_all [evalBlockList]

/-- Key frame-discipline fact: a block statement restores the scope exactly —
the pushed frame is popped on every exit path and no frame below the pushed
one is ever written. -/
theorem evalStmt_block_scope (l : List Stmt) (st : EvalState) :
    (EvalStmt (Stmt.block l) st).2.scope = st.scope := by
  have h := evalBlockList_keeps l 0 { st with scope := st.scope.Push }
  cases hp : evalBlockList l 0 { st with scope := st.scope.Push } with
  | mk r st1 =>
    rw [hp] at h
    simp only [Scope.Push] at h
    simp only [EvalStmt, hp]
    cases hs : st1.scope.frames with
    | nil => simp [hs] at h
    | cons top rest =>
      rw [hs] at h
      obtain ⟨-, h2, -, -⟩ := h
      simp only [List.tail_cons] at h2
      show Scope.Pop st1.scope = st.scope
      simp [Scope.Pop, hs, h2]

/-- The driver loop can change the scope only through `Set` on the root
frame, and never touches the registry or the history. -/
theorem runFunc_keeps (fset : FileSet) (body : List SrcStmt) (st : EvalState) :
    (runFunc fset body st).2.packages = st.packages ∧
    (runFunc fset body st).2.history = st.history := by
  induction body generalizing st with
  | nil => simp [runFunc]
  | cons s rest ih =>
    have hs := evalStmt_keeps s.stmt st
    cases h : EvalStmt s.stmt st with
    | mk r st1 =>
      rw [h] at hs
      cases r with
      | ok v =>
        have hr := ih st1
        simp_all [runFunc]
      | err e => simp_all [runFunc]
      | goPanic m => simp_all [runFunc]

/-- Spec-side reading of the block contract: evaluate the contained
statements strictly in order, stop at the first failure, and report the
0-based index of the failing statement with its (unwrapped) error.  A run
that succeeds, or that aborts with a panic before any failure, has no first
failure. -/
def seqFirstFailure : List Stmt → EvalState → Option (Nat × Err)
  | [], _ => none
  | s :: rest, st =>
    match EvalStmt s st with
    | (.ok _, st1) => (seqFirstFailure rest st1).map (fun p => (p.1 + 1, p.2))
    | (.err e, _) => some (0, e)
    | (.goPanic _, _) => none

theorem seqFirstFailure_lt (l : List Stmt) (st : EvalState) (j : Nat) (e : Err)
    (h : seqFirstFailure l st = some (j, e)) : j < l.length := by
  induction l generalizing st j with
  | nil => simp [seqFirstFailure] at h
  | cons s rest ih =>
    cases hs : EvalStmt s st with
    | mk r st1 =>
      simp only [seqFirstFailure, hs] at h
      cases r with
      | ok v =>
        simp at h
        obtain ⟨a, hrec, hj⟩ := h
        have := ih st1 a hrec
        simp only [List.length_cons]
        omega
      | err e2 =>
        simp at h
        simp only [List.length_cons]
        omega
      | goPanic m => simp at h

theorem evalBlockList_firstFailure (l : List Stmt) (i : Nat) (st : EvalState) :
    (∀ j e, seqFirstFailure l st = some (j, e) →
      (evalBlockList l i st).1 = .err (.inBlock (i + j) e)) ∧
    (seqFirstFailure l st = none →
      (evalBlockList l i st).1 = .ok () ∨
      ∃ m, (evalBlockList l i st).1 = .goPanic m) := by
  induction l generalizing i st with
  | nil => simp [seqFirstFailure, evalBlockList]
  | cons s rest ih =>
    cases hs : EvalStmt s st with
    | mk r st1 =>
      cases r with
      | ok v =>
        constructor
        · intro j e h
          simp only [seqFirstFailure, hs] at h
          simp at h
          obtain ⟨a, hrec, hj⟩ := h
          have h2 := (ih (i + 1) st1).1 a e hrec
          simp only [evalBlockList, hs]
          rw [h2]
          have hje : i + 1 + a = i + j := by omega
          rw [hje]
        · intro h
          simp only [seqFirstFailure, hs] at h
          simp at h
          have := (ih (i + 1) st1).2 h
          simp only [evalBlockList, hs]
          simpa using this
      | err e2 =>
        constructor
        · intro j e h
          simp only [seqFirstFailure, hs] at h
          simp at h
          obtain ⟨hj, he⟩ := h
          simp only [evalBlockList, hs]
          rw [← hj, ← he]
          simp
        · intro h
          simp only [seqFirstFailure, hs] at h
          simp at h
      | goPanic m =>
        constructor
        · intro j e h
          simp only [seqFirstFailure, hs] at h
          simp at h
        · intro h
          simp only [evalBlockList, hs]
          exact Or.inr ⟨m, rfl⟩

/-- C2.  For every block statement, EvalStmt pushes exactly one new frame,
evaluates the contained statements strictly in order stopping at the first
failure, and pops that frame on every exit path: the scope (in particular
the frame-stack depth) after the block equals the scope before it whether
the block succeeds, fails or panics, and a failure of the i-th contained
statement (0-based) is returned wrapped with that index i. -/
theorem c2_block_frame_discipline (l : List Stmt) (st : EvalState) :
    ((EvalStmt (Stmt.block l) st).2.scope = st.scope) ∧
    ((EvalStmt (Stmt.block l) st).2.scope.frames.length = st.scope.frames.length) ∧
    (∀ j e,
      seqFirstFailure l { st with scope := st.scope.Push } = some (j, e) →
      j < l.length ∧
      (EvalStmt (Stmt.block l) st).1 = .err (.inBlock j e)) ∧
    (seqFirstFailure l { st with scope := st.scope.Push } = none →
      (EvalStmt (Stmt.block l) st).1 = .ok () ∨
      ∃ m, (EvalStmt (Stmt.block l) st).1 = .goPanic m) := by
  refine ⟨evalStmt_block_scope l st, by rw [evalStmt_block_scope l st], ?_, ?_⟩
  · intro j e h
    refine ⟨seqFirstFailure_lt _ _ _ _ h, ?_⟩
    have := (evalBlockList_firstFailure l 0 { st with scope := st.scope.Push }).1 j e h
    simp only [EvalStmt]
    simpa using this
  · intro h
    have := (evalBlockList_firstFailure l 0 { st with scope := st.scope.Push }).2 h
    simp only [EvalStmt]
    rcases this with h1 | ⟨m, h1⟩
    · exact Or.inl (by simpa using h1)
    · exact Or.inr ⟨m, by simpa using h1⟩

/-- Witness for C2 at a concrete input: a block whose single statement is an
unsupported statement kind fails wrapped with index 0, and the scope is
restored. -/
theorem c2_block_frame_discipline_witness :
    (EvalStmt (Stmt.block [Stmt.otherStmt "*ast.IfStmt"]) initialState).1
      = .err (.inBlock 0 (.unsupportedStmtType "*ast.IfStmt")) ∧
    (EvalStmt (Stmt.block [Stmt.otherStmt "*ast.IfStmt"]) initialState).2.scope
      = initialState.scope :=
  ⟨((c2_block_frame_discipline [Stmt.otherStmt "*ast.IfStmt"] initialState).2.2.1 0
      (.unsupportedStmtType "*ast.IfStmt") (by decide)).2,
   (c2_block_frame_discipline [Stmt.otherStmt "*ast.IfStmt"] initialState).1⟩

/-- C3.  A name bound in an outer frame and re-bound inside a nested block
via `set` (which writes only to the topmost frame) is shadowed only while the
block executes: the shadow is visible to `get` inside the block, popping the
block's frame restores the scope exactly, and after any block exits `get`
returns the original outer value unchanged. -/
theorem c3_shadowing (l : List Stmt) (st : EvalState) (n : String) (v w : Value)
    (h : st.scope.Get n = some v) :
    (((st.scope.Push).Set n w).Get n = some w) ∧
    (((st.scope.Push).Set n w).frames.tail = st.scope.frames) ∧
    (((st.scope.Push).Set n w).Pop = st.scope) ∧
    ((EvalStmt (Stmt.block l) st).2.scope = st.scope) ∧
    ((EvalStmt (Stmt.block l) st).2.scope.Get n = some v) := by
  refine ⟨?_, ?_, ?_, evalStmt_block_scope l st, ?_⟩
  · simp [Scope.Push, Scope.Set, Scope.Get, mapSet, lookupFrames, mapGet]
  · simp [Scope.Push, Scope.Set]
  · simp [Scope.Push, Scope.Set, Scope.Pop]
  · rw [evalStmt_block_scope l st]
    exact h

/-- Witness for C3 at a concrete input: in the root scope, true is bound;
pushing a frame and shadowing it with false is visible, and an actual block
statement that re-binds the name leaves the outer binding unchanged. -/
theorem c3_shadowing_witness :
    (((initialState.scope.Push).Set "true" (.bool false)).Get "true"
        = some (.bool false)) ∧
    ((EvalStmt (Stmt.block
        [Stmt.assign [.ident "true"] [.basicLit .string "\"x\""]])
        initialState).2.scope.Get "true" = some (.bool true)) :=
  ⟨(c3_shadowing [Stmt.assign [.ident "true"] [.basicLit .string "\"x\""]]
      initialState "true" (.bool true) (.bool false) (by decide)).1,
   (c3_shadowing [Stmt.assign [.ident "true"] [.basicLit .string "\"x\""]]
      initialState "true" (.bool true) (.bool false) (by decide)).2.2.2.2⟩

/-- C4.  Binary expressions evaluate the left operand first and the right
operand only if the left succeeded; with both operands evaluated, both must
be valid values of exactly equal kind or evaluation fails with the
type-mismatch error; addition is kind-polymorphic (1+2 is 3, "a"+"b" is
"ab", 1.5+2.5 is 4.0, 1+"a" is a type mismatch); logical OR and AND succeed
only on two booleans; and any other operator fails as unsupported. -/
theorem c4_binary_eval :
    (∀ x op y st e st1, EvalExpr x st = (.err e, st1) →
      EvalExpr (.binary x op y) st = (.err (.failedToEvalBinaryLhs e), st1)) ∧
    (∀ x op y st xv st1 e st2,
      EvalExpr x st = (.ok xv, st1) → EvalExpr y st1 = (.err e, st2) →
      EvalExpr (.binary x op y) st = (.err (.failedToEvalBinaryRhs e), st2)) ∧
    (∀ x op y st xv st1 yv st2,
      EvalExpr x st = (.ok xv, st1) → EvalExpr y st1 = (.ok yv, st2) →
      (xv.kind = .Invalid ∨ yv.kind = .Invalid ∨ xv.kind ≠ yv.kind) →
      EvalExpr (.binary x op y) st = (.err (.invalidValues xv yv), st2)) ∧
    (∀ st, EvalExpr (.binary (.basicLit .int "1") .add (.basicLit .int "2")) st
      = (.ok (.int64 3), st)) ∧
    (∀ st, EvalExpr
        (.binary (.basicLit .string "\"a\"") .add (.basicLit .string "\"b\"")) st
      = (.ok (.string "ab"), st)) ∧
    (∀ st, EvalExpr
        (.binary (.basicLit .float "1.5") .add (.basicLit .float "2.5")) st
      = (.ok (.float64 4), st)) ∧
    (∀ st, EvalExpr
        (.binary (.basicLit .int "1") .add (.basicLit .string "\"a\"")) st
      = (.err (.invalidValues (.int 1) (.string "a")), st)) ∧
    (∀ x y st a b st1 st2,
      EvalExpr x st = (.ok (.bool a), st1) → EvalExpr y st1 = (.ok (.bool b), st2) →
      EvalExpr (.binary x .lor y) st = (.ok (.bool (a || b)), st2) ∧
      EvalExpr (.binary x .land y) st = (.ok (.bool (a && b)), st2)) ∧
    (∀ x y st xv yv st1 st2,
      EvalExpr x st = (.ok xv, st1) → EvalExpr y st1 = (.ok yv, st2) →
      xv.kind = yv.kind → xv.kind ≠ .Bool → xv.kind ≠ .Invalid →
      EvalExpr (.binary x .lor y) st
        = (.err (.unsupportedTypes xv.kind yv.kind), st2) ∧
      EvalExpr (.binary x .land y) st
        = (.err (.unsupportedTypes xv.kind yv.kind), st2)) ∧
    (∀ x y st xv yv st1 st2 r,
      EvalExpr x st = (.ok xv, st1) → EvalExpr y st1 = (.ok yv, st2) →
      xv.kind ≠ .Invalid → xv.kind = yv.kind →
      EvalExpr (.binary x (.otherOp r) y) st
        = (.err (.unsupportedOperator (.otherOp r)), st2)) := by
  refine ⟨?_, ?_, ?_, ?_, ?_, ?_, ?_, ?_, ?_, ?_⟩
  · intro x op y st e st1 h
    simp [EvalExpr, h]
  · intro x op y st xv st1 e st2 hx hy
    simp [EvalExpr, hx, hy]
  · intro x op y st xv st1 yv st2 hx hy hk
    simp only [EvalExpr, hx, hy]
    rw [binaryOp.eq_def, if_pos hk]
  · intro st; rfl
  · intro st; rfl
  · intro st
    have h1 : parseFloat "1.5"
        = Except.ok (((1 : Nat) : Rat) + ((5 : Nat) : Rat) / (10 : Rat) ^ (1 : Nat)) := by rfl
    have h2 : parseFloat "2.5"
        = Except.ok (((2 : Nat) : Rat) + ((5 : Nat) : Rat) / (10 : Rat) ^ (1 : Nat)) := by rfl
    simp only [EvalExpr, h1, h2]
    rw [binaryOp.eq_def, if_neg (by simp [Value.kind])]
    norm_num
  · intro st; rfl
  · intro x y st a b st1 st2 hx hy
    constructor <;> simp [EvalExpr, hx, hy, binaryOp, Value.kind]
  · intro x y st xv yv st1 st2 hx hy hk hb hi
    have hyb : yv.kind ≠ .Bool := by rw [← hk]; exact hb
    have hyi : yv.kind ≠ .Invalid := by rw [← hk]; exact hi
    constructor <;>
      (simp only [EvalExpr, hx, hy]
       rw [binaryOp.eq_def, if_neg (by simp [hi, hyi, hk])]
       cases xv <;> cases yv <;> simp_all [Value.kind])
  · intro x y st xv yv st1 st2 r hx hy hi hk
    have hyi : yv.kind ≠ .Invalid := by rw [← hk]; exact hi
    simp only [EvalExpr, hx, hy]
    rw [binaryOp.eq_def, if_neg (by simp [hi, hyi, hk])]

/-- Witness for C4 at concrete inputs: the left-precedence conjunct applied
to an undefined left operand, and the boolean OR conjunct applied to the
root-scope booleans. -/
theorem c4_binary_eval_witness :
    EvalExpr (.binary (.ident "nosuch") .add (.basicLit .int "2")) initialState
      = (.err (.failedToEvalBinaryLhs (.undefinedVariable "nosuch")), initialState) ∧
    EvalExpr (.binary (.ident "true") .lor (.ident "false")) initialState
      = (.ok (.bool true), initialState) :=
  ⟨c4_binary_eval.1 (.ident "nosuch") .add (.basicLit .int "2") initialState
      (.undefinedVariable "nosuch") initialState (by rfl),
   (c4_binary_eval.2.2.2.2.2.2.2.1 (.ident "true") (.ident "false") initialState
      true false initialState initialState (by rfl) (by rfl)).1⟩

/-- Counterexample to C5 as stated: in the freshly constructed interpreter
the bare identifier true is bound (to a boolean, not a Callable), and
calling it does not fail with an "unsupported function" error — the
reflective invocation aborts abnormally (reflect.Value.Call panics on a
non-function value). -/
theorem c5_counterexample :
    (EvalExpr (.call (.ident "true") []) initialState).1
      = .goPanic "reflect: call of reflect.Value.Call on bool Value" ∧
    ∀ e : Err, (EvalExpr (.call (.ident "true") []) initialState).1 ≠ .err e := by
  constructor
  · rfl
  · intro e h
    rw [show (EvalExpr (.call (.ident "true") []) initialState).1
        = .goPanic "reflect: call of reflect.Value.Call on bool Value" from rfl] at h
    exact Res.noConfusion h

/-- C5 as amended: for a call whose callee is a bare identifier, the
identifier is looked up in the current scope; if it is unbound the call
fails with the "unsupported function" error naming the identifier (not an
abnormal abort), but if it is bound to a non-callable value such as a
boolean, the reflective invocation aborts abnormally with a reflect panic
instead of returning an error. -/
theorem c5_bare_call_amended (name : String) (st : EvalState) :
    (st.scope.Get name = none →
      EvalExpr (.call (.ident name) []) st
        = (.err (.unsupportedFunction name), st)) ∧
    (∀ b, st.scope.Get name = some (.bool b) →
      EvalExpr (.call (.ident name) []) st
        = (.goPanic "reflect: call of reflect.Value.Call on bool Value", st)) := by
  constructor
  · intro h
    simp [EvalExpr, evalArgs, callDispatch, h]
  · intro b h
    simp [EvalExpr, evalArgs, callDispatch, h, callValue, firstOut, kindName, Value.kind]

/-- Witness for the amended C5 at concrete inputs: an unbound name errs, the
bound boolean false panics. -/
theorem c5_bare_call_amended_witness :
    EvalExpr (.call (.ident "nosuch") []) initialState
      = (.err (.unsupportedFunction "nosuch"), initialState) ∧
    EvalExpr (.call (.ident "false") []) initialState
      = (.goPanic "reflect: call of reflect.Value.Call on bool Value", initialState) :=
  ⟨(c5_bare_call_amended "nosuch" initialState).1 (by decide),
   (c5_bare_call_amended "false" initialState).2 false (by decide)⟩

/-- C6.  Assignments succeed only in the short-declaration shape with exactly
one left-hand identifier and one right-hand expression: more than one target
or more than one source on either side fails with the corresponding
"unsupported assignment shape" error (never a crash); in the supported shape
the right-hand expression is evaluated first and on success its result is
bound to the left-hand name in the current (topmost) frame only, which also
permits re-assigning a name already bound in that frame. -/
theorem c6_assign_shape :
    (∀ lhs rhs st, 1 < lhs.length →
      EvalStmt (Stmt.assign lhs rhs) st
        = (.err (.unsupportedAssignLhsCount lhs.length), st)) ∧
    (∀ lhs rhs st, lhs.length ≤ 1 → 1 < rhs.length →
      EvalStmt (Stmt.assign lhs rhs) st
        = (.err (.unsupportedAssignRhsCount rhs.length), st)) ∧
    (∀ n r st v st1, EvalExpr r st = (.ok v, st1) →
      EvalStmt (Stmt.assign [.ident n] [r]) st
        = (.ok (), { st1 with scope := st1.scope.Set n v })) ∧
    (∀ n r st e st1, EvalExpr r st = (.err e, st1) →
      EvalStmt (Stmt.assign [.ident n] [r]) st
        = (.err (.failedToEvalAssign e), st1)) ∧
    (∀ s : Scope, ∀ n v w, s.frames ≠ [] → ((s.Set n v).Set n w).Get n = some w) ∧
    (∀ s : Scope, ∀ n v, (s.Set n v).frames.tail = s.frames.tail) := by
  refine ⟨?_, ?_, ?_, ?_, ?_, ?_⟩
  · intro lhs rhs st h
    simp [EvalStmt, h]
  · intro lhs rhs st h1 h2
    have h1' : ¬ 1 < lhs.length := by omega
    simp [EvalStmt, h1', h2]
  · intro n r st v st1 h
    simp [EvalStmt, h]
  · intro n r st e st1 h
    simp [EvalStmt, h]
  · intro s n v w h
    cases hs : s.frames with
    | nil => exact absurd hs h
    | cons top rest =>
      simp [Scope.Set, hs, Scope.Get, lookupFrames, mapGet_mapSet_self]
  · intro s n v
    exact scopeSet_tail s n v

/-- Witness for C6 at concrete inputs: a two-target assignment fails with the
lhs-shape error, and a supported assignment binds in the current frame. -/
theorem c6_assign_shape_witness :
    EvalStmt (Stmt.assign [.ident "a", .ident "b"] [.basicLit .int "1"]) initialState
      = (.err (.unsupportedAssignLhsCount 2), initialState) ∧
    EvalStmt (Stmt.assign [.ident "a"] [.basicLit .int "1"]) initialState
      = (.ok (), { initialState with scope := initialState.scope.Set "a" (.int 1) }) :=
  ⟨c6_assign_shape.1 [.ident "a", .ident "b"] [.basicLit .int "1"] initialState
      (by decide),
   c6_assign_shape.2.2.1 "a" (.basicLit .int "1") initialState (.int 1) initialState
      (by rfl)⟩

/-- C1.  A call whose callee is the qualified selector alias.Name resolves
the alias through the import-alias table of the innermost active file (the
top of the call history), looks the resulting path up in the package
registry, and looks Name up among that package's exported callables; a call
to a case-conversion export upper-cases its string argument, and a missing
alias, missing package or missing export fails with a descriptive error
naming the unresolved pieces, rather than succeeding or crashing. -/
theorem c1_qualified_call_resolution (st : EvalState) (file : File)
    (a p sel : String) (pkg : Package)
    (hh : st.history.head? = some file) :
    (mapGet file.Imports a = some p → mapGet st.packages p = some pkg →
      mapGet pkg.Decls "ToUpper" = some .toUpperFn →
      ∀ v : String, 2 ≤ v.length →
        EvalExpr (.call (.selector (.ident a) "ToUpper") [.basicLit .string v]) st
          = (.ok (.string (goToUpper ((v.drop 1).dropRight 1))), st)) ∧
    (mapGet file.Imports a = none → mapGet st.packages "" = none →
      EvalExpr (.call (.selector (.ident a) sel) []) st
        = (.err (.unsupportedFunctionQualified a sel), st)) ∧
    (mapGet file.Imports a = some p → mapGet st.packages p = none →
      EvalExpr (.call (.selector (.ident a) sel) []) st
        = (.err (.unsupportedFunctionQualified a sel), st)) ∧
    (mapGet file.Imports a = some p → mapGet st.packages p = some pkg →
      mapGet pkg.Decls sel = none →
      EvalExpr (.call (.selector (.ident a) sel) []) st
        = (.err (.unsupportedFunctionSel a sel), st)) := by
  refine ⟨?_, ?_, ?_, ?_⟩
  · intro h1 h2 h3 v hv
    simp [EvalExpr, evalArgs, hv, callDispatch, hh, h1, h2, h3, callValue,
      firstOut, exprSelDesc]
  · intro h1 h2
    simp [EvalExpr, evalArgs, callDispatch, hh, h1, h2, exprSelDesc]
  · intro h1 h2
    simp [EvalExpr, evalArgs, callDispatch, hh, h1, h2, exprSelDesc]
  · intro h1 h2 h3
    simp [EvalExpr, evalArgs, callDispatch, hh, h1, h2, h3, exprSelDesc]

/-- File descriptor used by the C1 witness: a file whose alias table maps
pkg to the strings package path. -/
def c1File : File :=
  { Name := "main.go", Node := { pos := 0, decls := [], imports := [] },
    Imports := [("pkg", "strings")] }

/-- Interpreter state used by the C1 witness: the fresh interpreter with
`c1File` as the innermost active file. -/
def c1State : EvalState :=
  { initialState with history := [c1File] }

/-- Witness for C1 at concrete inputs: with a file importing the strings
package under the alias pkg on top of the call history, pkg.ToUpper("hello")
returns "HELLO", and a selector through an alias absent from the import
table fails with the qualified-call error naming the alias. -/
theorem c1_qualified_call_resolution_witness :
    EvalExpr (.call (.selector (.ident "pkg") "ToUpper")
        [.basicLit .string "\"hello\""]) c1State
      = (.ok (.string "HELLO"), c1State) ∧
    EvalExpr (.call (.selector (.ident "missing") "ToUpper") []) c1State
      = (.err (.unsupportedFunctionQualified "missing" "ToUpper"), c1State) :=
  ⟨(c1_qualified_call_resolution c1State c1File "pkg" "strings" "ToUpper"
      stringsPackage (by rfl)).1 (by rfl) (by rfl) (by rfl) "\"hello\"" (by decide),
   (c1_qualified_call_resolution c1State c1File "missing" "strings" "ToUpper"
      stringsPackage (by rfl)).2.1 (by rfl) (by rfl)⟩

theorem registerFile_env (fset : FileSet) (node : AstFile) (st : EvalState) :
    (registerFile fset node st).2.stdout = st.stdout ∧
    (registerFile fset node st).2.scope = st.scope ∧
    (registerFile fset node st).2.history = st.history := by
  cases hm : mapGet st.packages "main" with
  | none =>
    simp only [registerFile, hm]
    split <;> simp
  | some p =>
    simp only [registerFile, hm]
    split <;> simp

/-- C7.  RunFile scans the top-level declarations for a function declaration
named like the requested entry point; if none exists it fails with the
entry-point-not-found error naming it and writes no output; if one exists,
its body is run (from a state with the caller's scope and output unchanged)
strictly in order, and a failure of a body statement — all earlier
statements having succeeded — is returned wrapped with the line number that
the position lookup assigns to the failing statement.  Requesting entry
point Foo on a tree declaring a function Foo that prints "Foo" yields
exactly that line of output. -/
theorem c7_runfile_entry :
    (∀ (fset : FileSet) (node : AstFile) (ep : String) (st : EvalState),
      findFunc node.decls ep = none →
      (RunFile fset node ep st).1 = .err (.entrypointNotFound ep) ∧
      (RunFile fset node ep st).2.stdout = st.stdout) ∧
    (∀ (fset : FileSet) (node : AstFile) (ep : String) (st : EvalState)
        (body : List SrcStmt),
      findFunc node.decls ep = some body →
      ∃ st1 : EvalState, st1.scope = st.scope ∧ st1.stdout = st.stdout ∧
        (RunFile fset node ep st).1 = (runFunc fset body st1).1) ∧
    (∀ (fset : FileSet) (body : List SrcStmt) (st : EvalState) (k : Nat)
        (hk : k < body.length),
      (runFunc fset (body.take k) st).1 = .ok () →
      ∀ e st2,
        EvalStmt (body.get ⟨k, hk⟩).stmt ((runFunc fset (body.take k) st).2)
          = (.err e, st2) →
        (runFunc fset body st).1
          = .err (.atLine (fset (body.get ⟨k, hk⟩).pos).line e)) ∧
    (∀ fset : FileSet,
      (RunFile fset
        { pos := 0,
          decls := [Decl.funcDecl "Foo"
            [{ pos := 1,
               stmt := Stmt.exprStmt
                 (.call (.ident "println") [.basicLit .string "\"Foo\""]) }]],
          imports := [] } "Foo" initialState).1 = .ok () ∧
      (RunFile fset
        { pos := 0,
          decls := [Decl.funcDecl "Foo"
            [{ pos := 1,
               stmt := Stmt.exprStmt
                 (.call (.ident "println") [.basicLit .string "\"Foo\""]) }]],
          imports := [] } "Foo" initialState).2.stdout = "Foo\n") := by
  refine ⟨?_, ?_, ?_, ?_⟩
  · intro fset node ep st h
    have hr := registerFile_env fset node st
    constructor
    · simp [RunFile, h]
    · simp [RunFile, h, hr.1]
  · intro fset node ep st body h
    refine ⟨{ (registerFile fset node st).2 with
        history := (registerFile fset node st).1 :: (registerFile fset node st).2.history },
      ?_, ?_, ?_⟩
    · exact (registerFile_env fset node st).2.1
    · exact (registerFile_env fset node st).1
    · simp [RunFile, h]
  · intro fset body st k hk
    induction body generalizing k st with
    | nil => simp at hk
    | cons s rest ih =>
      cases k with
      | zero =>
        intro hok e st2 hfail
        simp only [List.take_zero, runFunc] at hok hfail ⊢
        simp only [List.get] at hfail ⊢
        rw [hfail]
      | succ k0 =>
        intro hok e st2 hfail
        simp only [List.take_succ_cons, List.get] at hok hfail ⊢
        cases hs : EvalStmt s.stmt st with
        | mk r st1 =>
          cases r with
          | ok v =>
            simp only [runFunc, hs] at hok hfail ⊢
            exact ih st1 k0 (by simpa using hk) hok e st2 hfail
          | err e2 => simp [runFunc, hs] at hok
          | goPanic m => simp [runFunc, hs] at hok
  · intro fset
    exact ⟨rfl, rfl⟩

/-- Witness for C7 at a concrete input: requesting entry point main on a
tree with no declarations fails with the entry-point error and leaves the
output empty. -/
theorem c7_runfile_entry_witness :
    (RunFile (fun _ => { filename := "f.go", line := 1 })
        { pos := 0, decls := [], imports := [] } "main" initialState).1
      = .err (.entrypointNotFound "main") ∧
    (RunFile (fun _ => { filename := "f.go", line := 1 })
        { pos := 0, decls := [], imports := [] } "main" initialState).2.stdout
      = "" :=
  c7_runfile_entry.1 (fun _ => { filename := "f.go", line := 1 })
    { pos := 0, decls := [], imports := [] } "main" initialState (by rfl)

theorem runFile_packages (fset : FileSet) (node : AstFile) (ep : String)
    (st : EvalState) :
    (RunFile fset node ep st).2.packages = (registerFile fset node st).2.packages := by
  cases hf : findFunc node.decls ep with
  | none => simp [RunFile, hf]
  | some body =>
    have h := (runFunc_keeps fset body
      { (registerFile fset node st).2 with
        history := (registerFile fset node st).1
          :: (registerFile fset node st).2.history }).1
    simp only [RunFile, hf]
    simpa using h

theorem runFile_stable (fset : FileSet) (node : AstFile) (ep : String)
    (st : EvalState) (pkgM : Package) (f1 : File)
    (h1 : mapGet st.packages "main" = some pkgM)
    (h2 : mapGet pkgM.Files ((fset node.pos).filename) = some f1) :
    (RunFile fset node ep st).2.packages = st.packages := by
  rw [runFile_packages]
  simp only [registerFile, h1, h2]

/-- The File descriptor that RunFile builds for a tree on its first
registration: the filename from the position lookup and the alias table from
the tree's imports. -/
def mainFileOf (fset : FileSet) (node : AstFile) : File :=
  { Name := (fset node.pos).filename, Node := node,
    Imports := buildImports node.imports }

/-- The "main" package after the first registration of a tree. -/
def mainPkgOf (fset : FileSet) (node : AstFile) : Package :=
  { Name := "main", Path := "main", Decls := [],
    Files := [((fset node.pos).filename, mainFileOf fset node)] }

theorem runTimes_one_packages (fset : FileSet) (node : AstFile) (ep : String) :
    (runTimes fset node ep 1).packages
      = initialPackages ++ [("main", mainPkgOf fset node)] := by
  show (RunFile fset node ep initialState).2.packages = _
  rw [runFile_packages]
  rfl

/-- C8.  Registration of a file in the "main" package is idempotent: the
main package is created lazily by the first RunFile call and the first run
of a filename registers its descriptor; after any positive number of runs of
the same tree the main package holds exactly one File descriptor for that
filename, and every further run leaves the registry unchanged. -/
theorem c8_registration_idempotent (fset : FileSet) (node : AstFile) (ep : String)
    (n : Nat) (h : 1 ≤ n) :
    countMainFiles (runTimes fset node ep n) ((fset node.pos).filename) = 1 ∧
    mapGet (runTimes fset node ep n).packages "main" = some (mainPkgOf fset node) ∧
    (runTimes fset node ep (n + 1)).packages = (runTimes fset node ep 1).packages := by
  have hmain1 : mapGet (runTimes fset node ep 1).packages "main"
      = some (mainPkgOf fset node) := by
    rw [runTimes_one_packages]
    rfl
  have hfiles : mapGet (mainPkgOf fset node).Files ((fset node.pos).filename)
      = some (mainFileOf fset node) := by
    simp [mainPkgOf, mapGet]
  have stable : ∀ m : Nat,
      (runTimes fset node ep (1 + m)).packages
        = (runTimes fset node ep 1).packages := by
    intro m
    induction m with
    | zero => rfl
    | succ m0 ih =>
      show (RunFile fset node ep (runTimes fset node ep (1 + m0))).2.packages = _
      have hst := runFile_stable fset node ep (runTimes fset node ep (1 + m0))
        (mainPkgOf fset node) (mainFileOf fset node)
        (by rw [ih]; exact hmain1) hfiles
      exact hst.trans ih
  obtain ⟨m, rfl⟩ := Nat.exists_eq_add_of_le h
  refine ⟨?_, ?_, ?_⟩
  · have hp := stable m
    simp only [countMainFiles, hp, hmain1]
    simp [mainPkgOf, List.filter]
  · rw [stable m]
    exact hmain1
  · rw [Nat.add_comm (1 + m) 1]
    exact stable (1 + m)

/-- Witness for C8 at a concrete input: after one run of an empty tree the
main package holds exactly one descriptor for its filename. -/
theorem c8_registration_idempotent_witness :
    countMainFiles
      (runTimes (fun _ => { filename := "w.go", line := 1 })
        { pos := 0, decls := [], imports := [] } "main" 1) "w.go" = 1 ∧
    mapGet (runTimes (fun _ => { filename := "w.go", line := 1 })
        { pos := 0, decls := [], imports := [] } "main" 1).packages "main"
      = some (mainPkgOf (fun _ => { filename := "w.go", line := 1 })
          { pos := 0, decls := [], imports := [] }) ∧
    (runTimes (fun _ => { filename := "w.go", line := 1 })
        { pos := 0, decls := [], imports := [] } "main" 2).packages
      = (runTimes (fun _ => { filename := "w.go", line := 1 })
        { pos := 0, decls := [], imports := [] } "main" 1).packages :=
  c8_registration_idempotent (fun _ => { filename := "w.go", line := 1 })
    { pos := 0, decls := [], imports := [] } "main" 1 (by decide)

/-- C9.  A RunFile call that fails with the entry-point-not-found error has
nonetheless changed the registry: the "main" package was created (lazily)
and the File descriptor for the filename was built and registered before the
entry-point scan, so the failure is not atomic with respect to registry
state — though it writes no output. -/
theorem c9_registration_on_failure (fset : FileSet) (node : AstFile) (ep : String)
    (st : EvalState)
    (hmain : mapGet st.packages "main" = none)
    (hfind : findFunc node.decls ep = none) :
    (RunFile fset node ep st).1 = .err (.entrypointNotFound ep) ∧
    mapGet (RunFile fset node ep st).2.packages "main" = some (mainPkgOf fset node) ∧
    (RunFile fset node ep st).2.stdout = st.stdout := by
  refine ⟨by simp [RunFile, hfind], ?_, ?_⟩
  · rw [runFile_packages]
    simp only [registerFile, hmain]
    have hget : mapGet
        ({ Name := "main", Path := "main", Decls := [], Files := [] } : Package).Files
        ((fset node.pos).filename) = none := by simp [mapGet]
    simp only [hget]
    rw [mapGet_mapSet_self]
    simp [mainPkgOf, mainFileOf, mapSet]
  · have hr := registerFile_env fset node st
    simp [RunFile, hfind, hr.1]

/-- Witness for C9 at a concrete input: the fresh interpreter, an empty tree
with one import, and a missing entry point. -/
theorem c9_registration_on_failure_witness :
    (RunFile (fun _ => { filename := "w.go", line := 1 })
        { pos := 0, decls := [], imports := [{ name := none, path := "\"strings\"" }] }
        "main" initialState).1
      = .err (.entrypointNotFound "main") ∧
    mapGet (RunFile (fun _ => { filename := "w.go", line := 1 })
        { pos := 0, decls := [], imports := [{ name := none, path := "\"strings\"" }] }
        "main" initialState).2.packages "main"
      = some (mainPkgOf (fun _ => { filename := "w.go", line := 1 })
          { pos := 0, decls := [], imports := [{ name := none, path := "\"strings\"" }] }) ∧
    (RunFile (fun _ => { filename := "w.go", line := 1 })
        { pos := 0, decls := [], imports := [{ name := none, path := "\"strings\"" }] }
        "main" initialState).2.stdout = "" :=
  c9_registration_on_failure (fun _ => { filename := "w.go", line := 1 })
    { pos := 0, decls := [], imports := [{ name := none, path := "\"strings\"" }] }
    "main" initialState (by rfl) (by rfl)

/-- C10.  Integer literals parse as plain decimal only: the evaluation of an
INT literal is exactly the Atoi conversion (wrapped as a conversion error on
failure), lexically valid Go literals in non-decimal form or with digit
separators (0x10, 1_000) fail with a conversion error, and every plain
decimal literal whose value fits in a machine int evaluates to that
integer. -/
theorem c10_int_literal :
    (∀ (v : String) (st : EvalState),
      EvalExpr (.basicLit .int v) st
        = ((match atoi v with
            | .ok n => Res.ok (Value.int n)
            | .error m => Res.err (.convIntErr m)), st)) ∧
    (∀ st : EvalState, (EvalExpr (.basicLit .int "0x10") st).1
      = .err (.convIntErr "strconv.Atoi: parsing \"0x10\": invalid syntax")) ∧
    (∀ st : EvalState, (EvalExpr (.basicLit .int "1_000") st).1
      = .err (.convIntErr "strconv.Atoi: parsing \"1_000\": invalid syntax")) ∧
    (∀ (v : String) (st : EvalState),
      v.toList ≠ [] → allDigits v.toList →
      (digitsVal v.toList : Int) ≤ 9223372036854775807 →
      EvalExpr (.basicLit .int v) st = (.ok (.int (digitsVal v.toList)), st)) := by
  refine ⟨?_, ?_, ?_, ?_⟩
  · intro v st
    cases h : atoi v with
    | ok n => simp [EvalExpr, h]
    | error m => simp [EvalExpr, h]
  · intro st; rfl
  · intro st; rfl
  · intro v st hne hdig hle
    have ha : atoi v = Except.ok ((digitsVal v.toList : Nat) : Int) := by
      cases hv : v.toList with
      | nil => exact absurd hv hne
      | cons c rest =>
        have hdig2 : allDigits (c :: rest) = true := by rw [← hv]; exact hdig
        have hc : '0' ≤ c ∧ c ≤ '9' := by
          have h2 := hdig2
          simp only [allDigits, List.all_cons, Bool.and_eq_true,
            decide_eq_true_eq] at h2
          exact h2.1
        have hcp : c ≠ '+' := fun hcc => by
          rw [hcc] at hc
          exact absurd hc.1 (by decide)
        have hcm : c ≠ '-' := fun hcc => by
          rw [hcc] at hc
          exact absurd hc.1 (by decide)
        have hle2 : (digitsVal (c :: rest) : Int) ≤ 9223372036854775807 := by
          rw [← hv]; exact hle
        have h0 : (0 : Int) ≤ (digitsVal (c :: rest) : Int) := Int.ofNat_nonneg _
        have hr : ¬((digitsVal (c :: rest) : Int) < -9223372036854775808 ∨
            9223372036854775807 < (digitsVal (c :: rest) : Int)) := by
          push_neg
          omega
        have hv2 : v.data = c :: rest := hv
        simp [atoi, hv, hv2, hcp, hcm, hdig2, hr]
        omega
    simp [EvalExpr, ha]

/-- Witness for C10 at a concrete input: the plain decimal literal 12345
evaluates to the integer 12345. -/
theorem c10_int_literal_witness :
    EvalExpr (.basicLit .int "12345") initialState
      = (.ok (.int 12345), initialState) :=
  c10_int_literal.2.2.2 "12345" initialState (by decide) (by decide) (by decide)

end Minigo
